import Mathlib

/-!
# CarND-MPC-Project: the telemetry handler of `src/main.cpp`

A shallow embedding of the pure parts of `main.cpp`: `hasData`, `polyeval`,
`polyfit`, and the body of the `onMessage` handler (latency compensation,
map-to-car conversion, error evaluation, actuator normalisation).

Conventions.
* `double` is idealised as a field `K`; every definition is generic in `K`, so
  it runs on `ℚ` and is reasoned about on `ℝ`.  The libm functions `cos`,
  `sin`, `atan` and the constant `M_PI` are passed in as arguments and are
  instantiated with `Real.cos`, `Real.sin`, `Real.arctan`, `Real.pi`.
* `std::string` is a `List Char`; `size_t` is a `Nat` reduced modulo `2 ^ 64`
  where the source subtracts.
* A failed `assert` and an uncaught exception are `none`.
* Code outside `main.cpp` (Eigen's `householderQr().solve`, `json::parse`,
  `json::dump`, `MPC::Solve`) is taken as a parameter.
-/

namespace MPCProject

/-! ## Numeric helpers (`main.cpp` lines 15-18, 35-42, 69-70) -/

/-- `deg2rad(x) = x * pi() / 180`, with `pi() = M_PI` passed as `pi`. -/
def deg2rad {K : Type} [Field K] (pi : K) (x : K) : K := x * pi / 180

/-- `rad2deg(x) = x * 180 / pi()`. -/
def rad2deg {K : Type} [Field K] (pi : K) (x : K) : K := x * 180 / pi

/-- `polyeval`: the loop `result += coeffs[i] * pow(x, i)` for
`i = 0 .. coeffs.size() - 1`, starting from `result = 0.0`. -/
def polyeval {K : Type} [Field K] (coeffs : List K) (x : K) : K :=
  (List.range coeffs.length).foldl (fun result i => result + coeffs.getD i 0 * x ^ i) 0

/-- Horner evaluation of lowest-degree-first coefficients, as the
specification describes the value of a coefficient list:
`c0 + x * (c1 + x * (c2 + ...))`. -/
def hornerEval {K : Type} [Field K] (coeffs : List K) (x : K) : K :=
  coeffs.foldr (fun a acc => a + x * acc) 0

/-- `const double Lf = 2.67`. -/
def Lf {K : Type} [Field K] : K := 2.67

/-! ## Latency compensation (`main.cpp` lines 110-116) -/

/-- The compensated state `(next_px, next_py, next_psi, next_v)`. -/
structure NextState (K : Type) where
  next_px : K
  next_py : K
  next_psi : K
  next_v : K

/-- Lines 112-116: one kinematic step with `dt = 0.1` driven by the echoed
`steering_angle` and `throttle`. -/
def latencyStep {K : Type} [Field K] (cos sin : K → K)
    (px py psi v steering_angle throttle : K) : NextState K :=
  let dt : K := 0.1
  { next_px := px + v * cos psi * dt
    next_py := py + v * sin psi * dt
    next_psi := psi - v / Lf * steering_angle * dt
    next_v := v + throttle * dt }

/-! ## Map-to-car conversion (`main.cpp` lines 119-130) -/

/-- One iteration of the loop at lines 122-130: the pair pushed onto
`(points_x, points_y)` for index `i`.  `ptsy[i]` is read with the same index as
`ptsx[i]`. -/
def carPoint {K : Type} [Field K] (cos sin : K → K) (next_px next_py next_psi : K)
    (ptsx ptsy : List K) (i : Nat) : K × K :=
  let x_shifted := ptsx.getD i 0 - next_px
  let y_shifted := ptsy.getD i 0 - next_py
  (x_shifted * cos (-next_psi) - y_shifted * sin (-next_psi),
   x_shifted * sin (-next_psi) + y_shifted * cos (-next_psi))

/-- The loop at lines 120-130: `i` runs over `0 .. ptsx.size() - 1`, each
iteration pushes one value onto `points_x` and one onto `points_y`. -/
def mapToCar {K : Type} [Field K] (cos sin : K → K) (next_px next_py next_psi : K)
    (ptsx ptsy : List K) : List K × List K :=
  (List.range ptsx.length).foldl
    (fun acc i =>
      let p := carPoint cos sin next_px next_py next_psi ptsx ptsy i
      (acc.1 ++ [p.1], acc.2 ++ [p.2]))
    ([], [])

/-! ## `polyfit` (`main.cpp` lines 47-66) -/

/-- The entry `A(j, i)` as lines 53-61 fill it for a row whose x-value is
`xj`: `A(j, 0) = 1.0` and `A(j, i + 1) = A(j, i) * xvals(j)`. -/
def designEntry {K : Type} [Field K] (xj : K) : Nat → K
  | 0 => 1
  | i + 1 => designEntry xj i * xj

/-- The matrix `A` of `polyfit`: `xvals.size()` rows and `order + 1` columns. -/
def designMatrix {K : Type} [Field K] (xvals : List K) (order : Int) :
    Matrix (Fin xvals.length) (Fin (order.toNat + 1)) K :=
  Matrix.of fun j i => designEntry (xvals.get j) i.val

/-- The type of Eigen's `A.householderQr().solve(b)`: for an `m × n` matrix and
a right-hand side of `m` entries it yields `n` entries. -/
abbrev QRSolve (K : Type) : Type :=
  (m n : Nat) → Matrix (Fin m) (Fin n) K → (Fin m → K) → (Fin n → K)

/-- `polyfit`.  The two `assert`s guard the body; a failed `assert` aborts
(`none`).  Eigen's `size()` is signed, so `xvals.size() - 1` is computed in
`Int`. -/
def polyfit {K : Type} [Field K] (qrSolve : QRSolve K) (xvals yvals : List K)
    (order : Int) : Option (List K) :=
  if xvals.length = yvals.length then
    if 1 ≤ order ∧ order ≤ (xvals.length : Int) - 1 then
      some (List.ofFn
        (qrSolve xvals.length (order.toNat + 1) (designMatrix xvals order)
          (fun j => yvals.getD j.val 0)))
    else none
  else none

/-- Sum of squared residuals `‖A c - y‖²`. -/
def sqResidual {K : Type} [Field K] {m n : Nat} (A : Matrix (Fin m) (Fin n) K)
    (y : Fin m → K) (c : Fin n → K) : K :=
  ∑ j : Fin m, (A.mulVec c j - y j) ^ 2

/-- The contract assumed of the QR solve: `c` minimises the sum of squared
residuals of the system `A c = y`. -/
def IsLeastSquares {m n : Nat} (A : Matrix (Fin m) (Fin n) ℝ) (y : Fin m → ℝ)
    (c : Fin n → ℝ) : Prop :=
  ∀ c' : Fin n → ℝ, sqResidual A y c ≤ sqResidual A y c'

/-! ## `hasData` (`main.cpp` lines 20-33) -/

/-- `std::string::find(pat)`: the least position at which `pat` occurs, `none`
for `npos`. -/
def find (pat : List Char) : List Char → Option Nat
  | [] => if pat = [] then some 0 else none
  | c :: t =>
    if pat.isPrefixOf (c :: t) then some 0
    else (find pat t).map (· + 1)

/-- `std::string::find_first_of(set)`: the least position holding a character
of `set`, `none` for `npos`. -/
def find_first_of (set : List Char) : List Char → Option Nat
  | [] => none
  | c :: t =>
    if c ∈ set then some 0
    else (find_first_of set t).map (· + 1)

/-- `std::string::rfind(pat)`: the greatest position at which `pat` occurs,
`none` for `npos`. -/
def rfind (pat : List Char) : List Char → Option Nat
  | [] => if pat = [] then some 0 else none
  | c :: t =>
    match rfind pat t with
    | some i => some (i + 1)
    | none => if pat.isPrefixOf (c :: t) then some 0 else none

/-- `std::string::substr(pos, len)` for `pos <= size()`: the characters from
`pos` on, at most `len` of them.  (`pos > size()` throws; `hasData` only calls
it with a position that `find_first_of` returned.) -/
def substr (s : List Char) (pos len : Nat) : List Char :=
  (s.drop pos).take len

/-- The `size_t` value of `b2 - b1 + 2`: unsigned 64-bit arithmetic. -/
def spanLength (b1 b2 : Nat) : Nat :=
  (b2 + 2 ^ 64 - b1 + 2) % 2 ^ 64

/-- `hasData`. -/
def hasData (s : List Char) : List Char :=
  let found_null := find "null".toList s
  let b1 := find_first_of "[".toList s
  let b2 := rfind "\x7d]".toList s
  if found_null ≠ none then []
  else
    match b1, b2 with
    | some b1, some b2 => substr s b1 (spanLength b1 b2)
    | _, _ => []

/-! ## The `onMessage` handler (`main.cpp` lines 78-197) -/

/-- The fields the handler reads from `j[1]`. -/
structure Telemetry (K : Type) where
  ptsx : List K
  ptsy : List K
  x : K
  y : K
  psi : K
  speed : K
  steering_angle : K
  throttle : K

/-- The fields the handler writes into `msgJson`. -/
structure MsgJson (K : Type) where
  steering_angle : K
  throttle : K
  mpc_x : List K
  mpc_y : List K
  next_x : List K
  next_y : List K

/-- What `mpc.Solve(state, poly_coeff)` leaves behind: the returned `vars` and
the members `mpc.x_vals`, `mpc.y_vals`. -/
structure MPCResult (K : Type) where
  vars : List K
  x_vals : List K
  y_vals : List K

/-- The collaborators of the handler that live outside `main.cpp`. -/
structure Env (K : Type) where
  /-- The libm `cos`. -/
  cos : K → K
  /-- The libm `sin`. -/
  sin : K → K
  /-- The libm `atan`. -/
  atan : K → K
  /-- The constant `M_PI`. -/
  pi : K
  /-- Eigen's `householderQr().solve`. -/
  qrSolve : QRSolve K
  /-- The call `mpc.Solve`. -/
  mpcSolve : List K → List K → MPCResult K
  /-- The calls `json::parse(s)`, `j[0].get<string>()` and the reads of `j[1]`:
  `none` when `parse` or `get<string>` throws; otherwise the event name and,
  when `j[1]` holds the eight telemetry fields, their values. -/
  parse : List Char → Option (List Char × Option (Telemetry K))
  /-- The call `msgJson.dump()`. -/
  dump : MsgJson K → List Char

/-- Lines 154-155: `steer_value = vars[0] / (deg2rad(25) * Lf)` and
`throttle_value = vars[1]`. -/
def actuatorCommand {K : Type} [Field K] (pi : K) (vars : List K) : K × K :=
  (vars.getD 0 0 / (deg2rad pi 25 * Lf), vars.getD 1 0)

/-- Lines 141-146: `cte`, `epsi` and the six-entry `state`. -/
def stateVector {K : Type} [Field K] (atan : K → K) (next_v : K) (poly_coeff : List K) :
    List K :=
  let cte := polyeval poly_coeff 0
  let epsi := -atan (poly_coeff.getD 1 0)
  [0, 0, 0, next_v, cte, epsi]

/-- Lines 110-146: latency compensation, map-to-car conversion, `polyfit` of
order 3 and error evaluation.  Yields the vehicle-frame points, the fitted
coefficients and the state vector, or `none` when `polyfit` aborts. -/
def pipeline {K : Type} [Field K] (env : Env K) (t : Telemetry K) :
    Option ((List K × List K) × List K × List K) :=
  let nxt := latencyStep env.cos env.sin t.x t.y t.psi t.speed t.steering_angle t.throttle
  let points := mapToCar env.cos env.sin nxt.next_px nxt.next_py nxt.next_psi t.ptsx t.ptsy
  match polyfit env.qrSolve points.1 points.2 3 with
  | none => none
  | some poly_coeff => some (points, poly_coeff, stateVector env.atan nxt.next_v poly_coeff)

/-- Lines 149-174: the solver call and the `msgJson` built from its result. -/
def commandMessage {K : Type} [Field K] (env : Env K) (points : List K × List K)
    (poly_coeff state : List K) : MsgJson K :=
  let res := env.mpcSolve state poly_coeff
  let cmd := actuatorCommand env.pi res.vars
  { steering_angle := cmd.1
    throttle := cmd.2
    mpc_x := res.x_vals
    mpc_y := res.y_vals
    next_x := points.1
    next_y := points.2 }

/-- What the handler hands to `ws.send`. -/
inductive Outbound (K : Type) where
  /-- The message built at line 177 around `msgJson`. -/
  | steer (msgJson : MsgJson K)
  /-- The message built at line 193. -/
  | manual

/-- The text of an outbound message (lines 177 and 193). -/
def wire {K : Type} (dump : MsgJson K → List Char) : Outbound K → List Char
  | Outbound.steer m => "42[\"steer\",".toList ++ dump m ++ "]".toList
  | Outbound.manual => "42[\"manual\",\x7b\x7d]".toList

/-- The observable steps of one handler run, in program order.  Writes to
`std::cout` and the 100 ms `sleep_for` before `ws.send` are not recorded. -/
inductive Effect (K : Type) where
  /-- The call `json::parse(s)`. -/
  | jsonParse (s : List Char)
  /-- The call `polyfit(points_ex, points_ey, 3)`. -/
  | fit (xvals yvals : List K)
  /-- The call `mpc.Solve(state, poly_coeff)`. -/
  | solve (state poly_coeff : List K)
  /-- The call `ws.send(msg)`. -/
  | send (msg : Outbound K)
  /-- An uncaught exception or a failed `assert` ends the process. -/
  | abort

/-- The body of the `onMessage` lambda (lines 83-196) as the list of its
observable steps. -/
def onMessage {K : Type} [Field K] (env : Env K) (sdata : List Char) : List (Effect K) :=
  if 2 < sdata.length ∧ sdata.getD 0 ' ' = '4' ∧ sdata.getD 1 ' ' = '2' then
    let s := hasData sdata
    if s ≠ [] then
      Effect.jsonParse s ::
        match env.parse s with
        | none => [Effect.abort]
        | some (event, data) =>
          if event = "telemetry".toList then
            match data with
            | none => [Effect.abort]
            | some t =>
              let nxt :=
                latencyStep env.cos env.sin t.x t.y t.psi t.speed t.steering_angle t.throttle
              let points :=
                mapToCar env.cos env.sin nxt.next_px nxt.next_py nxt.next_psi t.ptsx t.ptsy
              Effect.fit points.1 points.2 ::
                match pipeline env t with
                | none => [Effect.abort]
                | some (pts, poly_coeff, state) =>
                  [Effect.solve state poly_coeff,
                   Effect.send (Outbound.steer (commandMessage env pts poly_coeff state))]
          else []
    else [Effect.send Outbound.manual]
  else []

/-! ## Fixtures for concrete runs -/

/-- A stand-in for the collaborators, used to run the handler on concrete
inputs: `cos`, `sin`, `atan`, `pi` as given, a QR solve that answers with the
entries of `coeffs`, an `mpc.Solve` that answers `vars` with an empty
trajectory, a `json::parse` that throws, and an empty `dump`. -/
def stubEnv {K : Type} [Field K] (cos sin atan : K → K) (pi : K) (coeffs vars : List K) :
    Env K :=
  { cos := cos
    sin := sin
    atan := atan
    pi := pi
    qrSolve := fun _ _ _ _ i => coeffs.getD i.val 0
    mpcSolve := fun _ _ => { vars := vars, x_vals := [], y_vals := [] }
    parse := fun _ => none
    dump := fun _ => [] }

/-! ## Theorems -/

/-! ### `polyeval` -/

lemma foldl_add_eq_sum {K : Type} [Field K] (f : Nat → K) (l : List Nat) (a : K) :
    l.foldl (fun result i => result + f i) a = a + (l.map f).sum := by
  induction l generalizing a with
  | nil => simp
  | cons b t ih => simp [ih, add_assoc]

lemma sum_map_range {K : Type} [Field K] (f : Nat → K) (n : Nat) :
    ((List.range n).map f).sum = ∑ i in Finset.range n, f i := by
  induction n with
  | zero => simp
  | succ n ih => simp [List.range_succ, Finset.sum_range_succ, ih]

lemma polyeval_eq_sum {K : Type} [Field K] (coeffs : List K) (x : K) :
    polyeval coeffs x = ∑ i in Finset.range coeffs.length, coeffs.getD i 0 * x ^ i := by
  unfold polyeval
  rw [foldl_add_eq_sum (fun i => coeffs.getD i 0 * x ^ i), zero_add, sum_map_range]

lemma sum_eq_hornerEval {K : Type} [Field K] (coeffs : List K) (x : K) :
    ∑ i in Finset.range coeffs.length, coeffs.getD i 0 * x ^ i = hornerEval coeffs x := by
  induction coeffs with
  | nil => simp [hornerEval]
  | cons a t ih =>
    have hstep : hornerEval (a :: t) x = a + x * hornerEval t x := rfl
    rw [hstep, ← ih, List.length_cons, Finset.sum_range_succ', Finset.mul_sum]
    simp only [List.getD_cons_succ, List.getD_cons_zero, pow_zero, mul_one, pow_succ]
    rw [add_comm]
    congr 1
    apply Finset.sum_congr rfl
    intro i _
    ring

/-- C10: `polyeval c x` is the sum of `c[i] * x ^ i` over `i < c.size()`
(with `x ^ 0 = 1` also at `x = 0`, and the empty sum for `n = 0`), and this
is the Horner evaluation of the lowest-degree-first coefficients `c` at `x`. -/
theorem polyeval_lowest_degree_first (c : List ℝ) (x : ℝ) :
    polyeval c x = ∑ i in Finset.range c.length, c.getD i 0 * x ^ i ∧
      polyeval c x = hornerEval c x :=
  ⟨polyeval_eq_sum c x, (polyeval_eq_sum c x).trans (sum_eq_hornerEval c x)⟩

/-! ### Error evaluation -/

lemma polyeval_at_zero {K : Type} [Field K] (coeffs : List K) :
    polyeval coeffs 0 = coeffs.getD 0 0 := by
  rw [polyeval_eq_sum]
  cases coeffs with
  | nil => simp
  | cons a t =>
    rw [List.length_cons, Finset.sum_range_succ']
    simp

/-- C4: for a coefficient vector `[c0, c1, c2, c3]` the handler computes
`cte = polyeval(poly_coeff, 0) = c0` and `epsi = -atan(c1)`, and stores them as
the last two entries of `state`; for the zero polynomial both are exactly
zero. -/
theorem error_evaluation (next_v c0 c1 c2 c3 : ℝ) :
    polyeval [c0, c1, c2, c3] 0 = c0 ∧
      stateVector Real.arctan next_v [c0, c1, c2, c3] =
        [0, 0, 0, next_v, c0, -Real.arctan c1] ∧
      stateVector Real.arctan next_v [0, 0, 0, 0] = [0, 0, 0, next_v, 0, 0] := by
  refine ⟨?_, ?_, ?_⟩
  · simp [polyeval_at_zero]
  · simp [stateVector, polyeval_at_zero]
  · simp [stateVector, polyeval_at_zero]

/-! ### Latency compensation -/

/-- C1: with echoed `steering_angle = 0` and `throttle = 0` the compensated
heading is `psi`, the compensated speed is `v`, and the compensated position
is `(px + v * 0.1 * cos psi, py + v * 0.1 * sin psi)`. -/
theorem latency_step_zero_command (px py psi v : ℝ) :
    (latencyStep Real.cos Real.sin px py psi v 0 0).next_psi = psi ∧
      (latencyStep Real.cos Real.sin px py psi v 0 0).next_v = v ∧
      (latencyStep Real.cos Real.sin px py psi v 0 0).next_px
        = px + v * 0.1 * Real.cos psi ∧
      (latencyStep Real.cos Real.sin px py psi v 0 0).next_py
        = py + v * 0.1 * Real.sin psi := by
  refine ⟨?_, ?_, ?_, ?_⟩ <;> simp only [latencyStep] <;> ring

/-! ### Map-to-car conversion -/

lemma mapToCar_foldl {K : Type} [Field K] (p : Nat → K × K) (l : List Nat)
    (a b : List K) :
    l.foldl (fun acc i => (acc.1 ++ [(p i).1], acc.2 ++ [(p i).2])) (a, b)
      = (a ++ l.map (fun i => (p i).1), b ++ l.map (fun i => (p i).2)) := by
  induction l generalizing a b with
  | nil => simp
  | cons i t ih => simp [ih]

lemma mapToCar_eq {K : Type} [Field K] (cos sin : K → K) (x0 y0 psi0 : K)
    (ptsx ptsy : List K) :
    mapToCar cos sin x0 y0 psi0 ptsx ptsy =
      ((List.range ptsx.length).map (fun i => (carPoint cos sin x0 y0 psi0 ptsx ptsy i).1),
       (List.range ptsx.length).map (fun i => (carPoint cos sin x0 y0 psi0 ptsx ptsy i).2)) := by
  unfold mapToCar
  rw [mapToCar_foldl (carPoint cos sin x0 y0 psi0 ptsx ptsy)]
  simp

/-- C2: for waypoint lists of equal length `n` the handler's map-to-car
conversion yields `points_x`, `points_y` of length `n`, and for every index
`i < n` rotating `(points_x[i], points_y[i])` by `+psi0` and translating by
`(x0, y0)` gives back `(ptsx[i], ptsy[i])`.  The heading `psi0` is arbitrary,
so in particular any heading in `[-pi, pi]`. -/
theorem map_to_car_invertible (x0 y0 psi0 : ℝ) (ptsx ptsy : List ℝ)
    (hlen : ptsx.length = ptsy.length) :
    (mapToCar Real.cos Real.sin x0 y0 psi0 ptsx ptsy).1.length = ptsx.length ∧
      (mapToCar Real.cos Real.sin x0 y0 psi0 ptsx ptsy).2.length = ptsx.length ∧
      ∀ i, i < ptsx.length →
        (mapToCar Real.cos Real.sin x0 y0 psi0 ptsx ptsy).1.getD i 0 * Real.cos psi0
          - (mapToCar Real.cos Real.sin x0 y0 psi0 ptsx ptsy).2.getD i 0 * Real.sin psi0
          + x0 = ptsx.getD i 0 ∧
        (mapToCar Real.cos Real.sin x0 y0 psi0 ptsx ptsy).1.getD i 0 * Real.sin psi0
          + (mapToCar Real.cos Real.sin x0 y0 psi0 ptsx ptsy).2.getD i 0 * Real.cos psi0
          + y0 = ptsy.getD i 0 := by
  rw [mapToCar_eq]
  refine ⟨by simp, by simp, ?_⟩
  intro i hi
  have hi2 : i < ptsy.length := hlen ▸ hi
  have hcs := Real.sin_sq_add_cos_sq psi0
  simp only [List.getD_eq_getElem?_getD, List.getElem?_map, List.getElem?_range hi,
    Option.map_some', Option.getD_some, carPoint, Real.cos_neg, Real.sin_neg]
  constructor
  · linear_combination (ptsx[i]?.getD 0 - x0) * hcs
  · linear_combination (ptsy[i]?.getD 0 - y0) * hcs

/-- The inverse property of C2 at the waypoints `(1, 2)`, `(3, 4)` seen from
the pose `(1, 1, 0)`. -/
theorem map_to_car_invertible_witness :
    (mapToCar Real.cos Real.sin 1 1 0 [1, 3] [2, 4]).1.length = 2 ∧
      (mapToCar Real.cos Real.sin 1 1 0 [1, 3] [2, 4]).2.length = 2 ∧
      ∀ i, i < 2 →
        (mapToCar Real.cos Real.sin 1 1 0 [1, 3] [2, 4]).1.getD i 0 * Real.cos 0
          - (mapToCar Real.cos Real.sin 1 1 0 [1, 3] [2, 4]).2.getD i 0 * Real.sin 0
          + 1 = ([1, 3] : List ℝ).getD i 0 ∧
        (mapToCar Real.cos Real.sin 1 1 0 [1, 3] [2, 4]).1.getD i 0 * Real.sin 0
          + (mapToCar Real.cos Real.sin 1 1 0 [1, 3] [2, 4]).2.getD i 0 * Real.cos 0
          + 1 = ([2, 4] : List ℝ).getD i 0 :=
  map_to_car_invertible 1 1 0 [1, 3] [2, 4] rfl

/-! ### `hasData` and the degenerate inbound signal -/

lemma find_eq_none_iff (pat s : List Char) : find pat s = none ↔ ¬ pat <:+: s := by
  induction s with
  | nil =>
    by_cases h : pat = [] <;> simp [find, h]
  | cons c t ih =>
    unfold find
    by_cases h : pat.isPrefixOf (c :: t) = true
    · have hp : pat <+: c :: t := List.isPrefixOf_iff_prefix.mp h
      simp [h, List.infix_cons_iff, hp]
    · have hp : ¬ pat <+: c :: t := fun hp => h (List.isPrefixOf_iff_prefix.mpr hp)
      simp [h, List.infix_cons_iff, hp, ih]

lemma rfind_eq_none_iff (pat s : List Char) : rfind pat s = none ↔ ¬ pat <:+: s := by
  induction s with
  | nil =>
    by_cases h : pat = [] <;> simp [rfind, h]
  | cons c t ih =>
    unfold rfind
    cases hr : rfind pat t with
    | some i =>
      have ht : pat <:+: t := by
        by_contra hcon
        rw [ih.mpr hcon] at hr
        cases hr
      simp [List.infix_cons_iff, ht]
    | none =>
      have ht : ¬ pat <:+: t := ih.mp hr
      by_cases h : pat.isPrefixOf (c :: t) = true
      · have hp : pat <+: c :: t := List.isPrefixOf_iff_prefix.mp h
        simp [h, List.infix_cons_iff, hp]
      · have hp : ¬ pat <+: c :: t := fun hp => h (List.isPrefixOf_iff_prefix.mpr hp)
        simp [h, List.infix_cons_iff, hp, ht]

lemma find_first_of_eq_none_iff (set s : List Char) :
    find_first_of set s = none ↔ ∀ c ∈ s, c ∉ set := by
  induction s with
  | nil => simp [find_first_of]
  | cons c t ih =>
    unfold find_first_of
    by_cases h : c ∈ set <;> simp [h, ih]

lemma hasData_of_null (s : List Char) (h : "null".toList <:+: s) : hasData s = [] := by
  have hf : find "null".toList s ≠ none := fun hn => (find_eq_none_iff _ _).mp hn h
  unfold hasData
  exact if_pos hf

lemma hasData_of_no_bracket (s : List Char) (h : '[' ∉ s) : hasData s = [] := by
  have hb : find_first_of "[".toList s = none := by
    rw [find_first_of_eq_none_iff]
    intro c hc hmem
    have : c = '[' := by simpa using hmem
    exact h (this ▸ hc)
  unfold hasData
  simp only [hb]
  split <;> rfl

lemma hasData_of_no_closing (s : List Char) (h : ¬ "\x7d]".toList <:+: s) :
    hasData s = [] := by
  have hb : rfind "\x7d]".toList s = none := (rfind_eq_none_iff _ _).mpr h
  unfold hasData
  simp only [hb]
  split
  · rfl
  · split <;> simp_all

/-- C6: for an inbound message `sdata` longer than two characters that starts
with `42`: (a) if `sdata` contains `null`, or has no `[`, or has no `}]`, then
`hasData sdata` is the empty string; (b) whenever `hasData sdata` is the empty
string the handler does exactly one thing, `ws.send` of the manual message,
with no `json::parse`, no `polyfit` and no `mpc.Solve`; (c) the text of that
message is `42["manual",{}]`. -/
theorem degenerate_signal_manual_ack (env : Env ℝ) (sdata : List Char)
    (hsize : 2 < sdata.length) (h4 : sdata.getD 0 ' ' = '4') (h2 : sdata.getD 1 ' ' = '2') :
    ("null".toList <:+: sdata ∨ '[' ∉ sdata ∨ ¬ "\x7d]".toList <:+: sdata →
        hasData sdata = []) ∧
      (hasData sdata = [] → onMessage env sdata = [Effect.send Outbound.manual]) ∧
      wire env.dump Outbound.manual =
        ['4', '2', '[', '"', 'm', 'a', 'n', 'u', 'a', 'l', '"', ',', '\x7b', '\x7d', ']'] := by
  refine ⟨?_, ?_, rfl⟩
  · rintro (h | h | h)
    · exact hasData_of_null sdata h
    · exact hasData_of_no_bracket sdata h
    · exact hasData_of_no_closing sdata h
  · intro he
    unfold onMessage
    rw [if_pos ⟨hsize, h4, h2⟩]
    simp [he]

/-- C6 at the message `42[null]`: it is longer than two characters, starts
with `42`, contains `null`, and the handler answers with the manual message
only. -/
theorem degenerate_signal_manual_ack_witness :
    2 < "42[null]".toList.length ∧
      "null".toList <:+: "42[null]".toList ∧
      hasData "42[null]".toList = [] ∧
      onMessage (stubEnv Real.cos Real.sin Real.arctan Real.pi [] []) "42[null]".toList
        = [Effect.send Outbound.manual] :=
  have h := degenerate_signal_manual_ack
    (stubEnv Real.cos Real.sin Real.arctan Real.pi [] []) "42[null]".toList
    (by decide) (by decide) (by decide)
  ⟨by decide, by decide, h.1 (Or.inl (by decide)), h.2.1 (h.1 (Or.inl (by decide)))⟩

/-- C9 at the message `42}]x[abc`, whose last `}]` (position 2) lies before its
first `[` (position 5): `b2 - b1 + 2` wraps around to `2 ^ 64 - 1`, and
`hasData` returns `[abc`, which is not empty and does not end with `}]`; the
handler then passes it to `json::parse`. -/
theorem hasData_wraparound :
    find_first_of "[".toList "42\x7d]x[abc".toList = some 5 ∧
      rfind "\x7d]".toList "42\x7d]x[abc".toList = some 2 ∧
      spanLength 5 2 = 2 ^ 64 - 1 ∧
      hasData "42\x7d]x[abc".toList = ['[', 'a', 'b', 'c'] ∧
      ¬ ("\x7d]".toList <:+ hasData "42\x7d]x[abc".toList) ∧
      (onMessage (stubEnv Real.cos Real.sin Real.arctan Real.pi [] [])
          "42\x7d]x[abc".toList).head?
        = some (Effect.jsonParse ['[', 'a', 'b', 'c']) := by
  have hd : hasData "42\x7d]x[abc".toList = ['[', 'a', 'b', 'c'] := by decide
  refine ⟨by decide, by decide, by decide, hd, by decide, ?_⟩
  unfold onMessage
  rw [if_pos ⟨by decide, by decide, by decide⟩]
  simp only [hd]
  simp

/-! ### `polyfit`: the precondition check -/

/-- C8, counterexample: `xvals = [1, 1, 1, 1]` holds one distinct value, fewer
than `order + 1 = 4`, yet both `assert`s pass and `polyfit` returns the
solver's answer. -/
theorem polyfit_accepts_repeated_xvals :
    ([1, 1, 1, 1] : List ℚ).dedup.length < 3 + 1 ∧
      polyfit (fun _ _ _ _ _ => 0) ([1, 1, 1, 1] : List ℚ) [0, 0, 0, 0] 3
        = some [0, 0, 0, 0] := by
  refine ⟨by decide, ?_⟩
  simp [polyfit]

lemma polyfit_none_of_short {K : Type} [Field K] (qrSolve : QRSolve K) (xvals yvals : List K)
    (order : Int) (hfew : (xvals.length : Int) < order + 1) :
    polyfit qrSolve xvals yvals order = none := by
  unfold polyfit
  split
  · rw [if_neg]
    rintro ⟨_, h⟩
    omega
  · rfl

/-- C8, amended: when `xvals` has fewer than `order + 1` entries (counted with
repetition) `polyfit` returns no coefficients: its precondition check fails,
whatever the solver would have answered. -/
theorem polyfit_rejects_too_few_points (qrSolve : QRSolve ℝ) (xvals yvals : List ℝ)
    (order : Int) (hfew : (xvals.length : Int) < order + 1) :
    polyfit qrSolve xvals yvals order = none :=
  polyfit_none_of_short qrSolve xvals yvals order hfew

/-- C8 amended, at three points and order 3. -/
theorem polyfit_rejects_too_few_points_witness :
    (([10, 20, 30] : List ℝ).length : Int) < 3 + 1 ∧
      polyfit (fun _ _ _ _ _ => 0) ([10, 20, 30] : List ℝ) [0, 0, 0] 3 = none :=
  ⟨by decide, polyfit_rejects_too_few_points _ _ _ 3 (by decide)⟩

/-! ### `polyfit`: recovering a polynomial -/

lemma designEntry_eq_pow {K : Type} [Field K] (xj : K) (i : Nat) :
    designEntry xj i = xj ^ i := by
  induction i with
  | zero => simp [designEntry]
  | succ i ih => rw [designEntry, ih, pow_succ]

lemma sqResidual_nonneg {m n : Nat} (A : Matrix (Fin m) (Fin n) ℝ) (y : Fin m → ℝ)
    (c : Fin n → ℝ) : 0 ≤ sqResidual A y c :=
  Finset.sum_nonneg fun _ _ => sq_nonneg _

lemma sqResidual_eq_zero_iff {m n : Nat} (A : Matrix (Fin m) (Fin n) ℝ) (y : Fin m → ℝ)
    (c : Fin n → ℝ) : sqResidual A y c = 0 ↔ A.mulVec c = y := by
  unfold sqResidual
  rw [Finset.sum_eq_zero_iff_of_nonneg (fun _ _ => sq_nonneg _)]
  constructor
  · intro h
    funext j
    have := h j (Finset.mem_univ j)
    exact sub_eq_zero.mp ((pow_eq_zero_iff two_ne_zero).mp this)
  · intro h j _
    simp [h]

/-- A least-squares solution of a consistent system solves it. -/
lemma leastSquares_solves {m n : Nat} (A : Matrix (Fin m) (Fin n) ℝ) (y : Fin m → ℝ)
    (c r : Fin n → ℝ) (hc : A.mulVec c = y) (hr : IsLeastSquares A y r) :
    A.mulVec r = y := by
  have h0 : sqResidual A y c = 0 := (sqResidual_eq_zero_iff A y c).mpr hc
  have hle : sqResidual A y r ≤ 0 := h0 ▸ hr c
  exact (sqResidual_eq_zero_iff A y r).mp (le_antisymm hle (sqResidual_nonneg A y r))

/-- A matrix of powers of at least `n` pairwise distinct values has a trivial
kernel. -/
lemma powers_kernel_trivial {m n : Nat} (x : Fin m → ℝ) (A : Matrix (Fin m) (Fin n) ℝ)
    (hA : ∀ j i, A j i = x j ^ i.val) (hinj : Function.Injective x) (hmn : n ≤ m)
    (d : Fin n → ℝ) (hd : A.mulVec d = 0) : d = 0 := by
  have hdet : (Matrix.vandermonde (fun k : Fin n => x (Fin.castLE hmn k))).det ≠ 0 :=
    Matrix.det_vandermonde_ne_zero_iff.mpr
      (fun a b hab => Fin.castLE_injective hmn (hinj hab))
  apply Matrix.eq_zero_of_mulVec_eq_zero hdet
  funext k
  have hk := congrFun hd (Fin.castLE hmn k)
  simp only [Matrix.mulVec, Matrix.dotProduct, Pi.zero_apply] at hk ⊢
  rw [← hk]
  apply Finset.sum_congr rfl
  intro i _
  rw [hA, Matrix.vandermonde_apply]

/-- The least-squares solution of a consistent system of powers of at least
`n` pairwise distinct values is the generating coefficient vector. -/
lemma leastSquares_recovers {m n : Nat} (x : Fin m → ℝ) (A : Matrix (Fin m) (Fin n) ℝ)
    (hA : ∀ j i, A j i = x j ^ i.val) (hinj : Function.Injective x) (hmn : n ≤ m)
    (y : Fin m → ℝ) (c r : Fin n → ℝ) (hc : A.mulVec c = y)
    (hr : IsLeastSquares A y r) : r = c := by
  have hr2 : A.mulVec r = y := leastSquares_solves A y c r hc hr
  have hd : A.mulVec (r - c) = 0 := by rw [Matrix.mulVec_sub, hr2, hc, sub_self]
  exact sub_eq_zero.mp (powers_kernel_trivial x A hA hinj hmn (r - c) hd)

lemma designMatrix_apply (xvals : List ℝ) (order : Int)
    (j : Fin xvals.length) (i : Fin (order.toNat + 1)) :
    designMatrix xvals order j i = xvals.get j ^ i.val := by
  simp [designMatrix, designEntry_eq_pow]

/-- The design matrix of order 3 applied to `(c0, c1, c2, c3)` evaluates the
cubic at every x-value. -/
lemma designMatrix_mulVec_cubic (c0 c1 c2 c3 : ℝ) (xvals : List ℝ) :
    (designMatrix xvals 3).mulVec (fun i => ([c0, c1, c2, c3] : List ℝ).getD i.val 0)
      = fun j => (xvals.map (fun x => c0 + c1 * x + c2 * x ^ 2 + c3 * x ^ 3)).getD j.val 0 := by
  funext j
  simp only [Matrix.mulVec, Matrix.dotProduct, designMatrix_apply]
  change ∑ i : Fin 4, xvals.get j ^ i.val * ([c0, c1, c2, c3] : List ℝ).getD i.val 0 = _
  rw [Fin.sum_univ_four]
  have h3 : ((3 : Fin 4) : Nat) = 3 := rfl
  simp [h3]
  ring

lemma isLeastSquares_of_solves {m n : Nat} (A : Matrix (Fin m) (Fin n) ℝ) (y : Fin m → ℝ)
    (c : Fin n → ℝ) (hc : A.mulVec c = y) : IsLeastSquares A y c := by
  intro c'
  rw [(sqResidual_eq_zero_iff A y c).mpr hc]
  exact sqResidual_nonneg A y c'

/-- `polyfit` of order 3 on at least four pairwise distinct x-values whose
y-values lie on the cubic `c`, with a least-squares QR solve, returns `c`. -/
lemma polyfit_cubic (qrSolve : QRSolve ℝ) (c0 c1 c2 c3 : ℝ) (xvals yvals : List ℝ)
    (hn : 4 ≤ xvals.length) (hdist : xvals.Nodup)
    (hy : yvals = xvals.map (fun x => c0 + c1 * x + c2 * x ^ 2 + c3 * x ^ 3))
    (hls : IsLeastSquares (designMatrix xvals 3) (fun j => yvals.getD j.val 0)
      (qrSolve xvals.length ((3 : Int).toNat + 1) (designMatrix xvals 3)
        (fun j => yvals.getD j.val 0))) :
    polyfit qrSolve xvals yvals 3 = some [c0, c1, c2, c3] := by
  have hlen : xvals.length = yvals.length := by rw [hy, List.length_map]
  have hguard : (1 : Int) ≤ 3 ∧ (3 : Int) ≤ (xvals.length : Int) - 1 := by
    constructor <;> omega
  unfold polyfit
  rw [if_pos hlen, if_pos hguard]
  have hrec := leastSquares_recovers (fun j => xvals.get j) (designMatrix xvals 3)
    (designMatrix_apply xvals 3) (List.nodup_iff_injective_get.mp hdist) hn
    (fun j => yvals.getD j.val 0) (fun i => ([c0, c1, c2, c3] : List ℝ).getD i.val 0) _
    (by rw [hy]; exact designMatrix_mulVec_cubic c0 c1 c2 c3 xvals) hls
  rw [hrec]
  rfl

/-- C3: for a cubic with coefficients `(c0, c1, c2, c3)` and at least four
pairwise distinct x-values with `yvals[j] = p(xvals[j])`, `polyfit(xvals,
yvals, 3)` passes its assertions and returns exactly the four coefficients
`[c0, c1, c2, c3]`, lowest degree first, provided the value of the QR solve on
the design matrix that `polyfit` builds is a least-squares solution. -/
theorem polyfit_recovers_known_cubic (qrSolve : QRSolve ℝ) (c0 c1 c2 c3 : ℝ)
    (xvals yvals : List ℝ) (hn : 4 ≤ xvals.length) (hdist : xvals.Nodup)
    (hy : yvals = xvals.map (fun x => c0 + c1 * x + c2 * x ^ 2 + c3 * x ^ 3))
    (hls : IsLeastSquares (designMatrix xvals 3) (fun j => yvals.getD j.val 0)
      (qrSolve xvals.length ((3 : Int).toNat + 1) (designMatrix xvals 3)
        (fun j => yvals.getD j.val 0))) :
    polyfit qrSolve xvals yvals 3 = some [c0, c1, c2, c3] ∧
      (polyfit qrSolve xvals yvals 3).map List.length = some 4 := by
  have h := polyfit_cubic qrSolve c0 c1 c2 c3 xvals yvals hn hdist hy hls
  exact ⟨h, by rw [h]; rfl⟩

/-- C3 at the cubic `1 + 2 x + 3 x² + 4 x³` sampled at `0, 1, 2, 3, 4`, with a
solve that answers `(1, 2, 3, 4)`, which is a least-squares solution there. -/
theorem polyfit_recovers_known_cubic_witness :
    polyfit (fun _ _ _ _ i => ([1, 2, 3, 4] : List ℝ).getD i.val 0) [0, 1, 2, 3, 4]
        (([0, 1, 2, 3, 4] : List ℝ).map (fun x => 1 + 2 * x + 3 * x ^ 2 + 4 * x ^ 3)) 3
      = some [1, 2, 3, 4] :=
  (polyfit_recovers_known_cubic (fun _ _ _ _ i => ([1, 2, 3, 4] : List ℝ).getD i.val 0)
    1 2 3 4 [0, 1, 2, 3, 4] _ (by simp) (by simp) rfl
    (isLeastSquares_of_solves _ _ _ (designMatrix_mulVec_cubic 1 2 3 4 [0, 1, 2, 3, 4]))).1

/-! ### The pipeline up to the state vector -/

lemma mapToCar_length {K : Type} [Field K] (cos sin : K → K) (x0 y0 psi0 : K)
    (ptsx ptsy : List K) :
    (mapToCar cos sin x0 y0 psi0 ptsx ptsy).1.length = ptsx.length ∧
      (mapToCar cos sin x0 y0 psi0 ptsx ptsy).2.length = ptsx.length := by
  rw [mapToCar_eq]
  simp

lemma pipeline_none_of_short {K : Type} [Field K] (env : Env K) (t : Telemetry K)
    (hfew : t.ptsx.length < 4) : pipeline env t = none := by
  unfold pipeline
  simp only []
  rw [polyfit_none_of_short]
  rw [(mapToCar_length _ _ _ _ _ _ _).1]
  omega

/-- C7, counterexample: on the three waypoints `(10, 0)`, `(20, 0)`, `(30, 0)`
the assertion `order <= xvals.size() - 1` of `polyfit` fails (`3 <= 2`), so the
pipeline produces no state vector. -/
theorem three_waypoints_abort :
    pipeline (stubEnv Real.cos Real.sin Real.arctan Real.pi [] [])
      { ptsx := [10, 20, 30], ptsy := [0, 0, 0], x := 0, y := 0, psi := 0, speed := 10,
        steering_angle := 0, throttle := 0 } = none :=
  pipeline_none_of_short _ _ (by decide)

/-- The pipeline on the four waypoints `(10, 0)`, `(20, 0)`, `(30, 0)`, `(40, 0)`
seen from the pose `(0, 0, 0)` at speed 10 with echoed command `(0, 0)`. -/
lemma pipeline_four_waypoints (qrSolve : QRSolve ℝ)
    (mpcSolve : List ℝ → List ℝ → MPCResult ℝ)
    (parse : List Char → Option (List Char × Option (Telemetry ℝ)))
    (dump : MsgJson ℝ → List Char)
    (hls : IsLeastSquares (designMatrix [9, 19, 29, 39] 3)
      (fun j => ([0, 0, 0, 0] : List ℝ).getD j.val 0)
      (qrSolve ([9, 19, 29, 39] : List ℝ).length ((3 : Int).toNat + 1)
        (designMatrix [9, 19, 29, 39] 3) (fun j => ([0, 0, 0, 0] : List ℝ).getD j.val 0))) :
    pipeline
      { cos := Real.cos, sin := Real.sin, atan := Real.arctan, pi := Real.pi,
        qrSolve := qrSolve, mpcSolve := mpcSolve, parse := parse, dump := dump }
      { ptsx := [10, 20, 30, 40], ptsy := [0, 0, 0, 0], x := 0, y := 0, psi := 0,
        speed := 10, steering_angle := 0, throttle := 0 }
      = some (([9, 19, 29, 39], [0, 0, 0, 0]), [0, 0, 0, 0], [0, 0, 0, 10, 0, 0]) := by
  have hpts : mapToCar Real.cos Real.sin (0 + 10 * Real.cos 0 * 0.1)
      (0 + 10 * Real.sin 0 * 0.1) (0 - 10 / Lf * 0 * 0.1) [10, 20, 30, 40] [0, 0, 0, 0]
      = (([9, 19, 29, 39], [0, 0, 0, 0]) : List ℝ × List ℝ) := by
    rw [mapToCar_eq]
    simp [carPoint, List.range_succ]
    norm_num
  have hfit := polyfit_cubic qrSolve 0 0 0 0 [9, 19, 29, 39] [0, 0, 0, 0]
    (by simp) (by simp) (by simp) hls
  simp only [pipeline, latencyStep, hpts, hfit, stateVector, polyeval_at_zero]
  simp

/-- The zero vector is a least-squares solution of the design system of
`9, 19, 29, 39` with zero right-hand side. -/
lemma zero_solve_isLeastSquares :
    IsLeastSquares (designMatrix [9, 19, 29, 39] 3)
      (fun j => ([0, 0, 0, 0] : List ℝ).getD j.val 0)
      (fun i => ([] : List ℝ).getD i.val 0) := by
  apply isLeastSquares_of_solves
  funext j
  rcases j with ⟨j, hj⟩
  simp only [List.length_cons, List.length_nil] at hj
  simp only [Matrix.mulVec, Matrix.dotProduct, List.getD_nil, mul_zero,
    Finset.sum_const_zero]
  interval_cases j <;> rfl

/-- C7, amended: on the four waypoints `(10, 0)`, `(20, 0)`, `(30, 0)`,
`(40, 0)` with pose `x = 0`, `y = 0`, `psi = 0`, `speed = 10` and echoed command
`(0, 0)`, the pipeline yields the vehicle-frame points `(9, 0)`, `(19, 0)`,
`(29, 0)`, `(39, 0)`, the zero polynomial and the state vector
`[0, 0, 0, 10, 0, 0]`: `cte` and `epsi` are exactly zero, provided the value of
the QR solve on the design matrix of these points is a least-squares
solution. -/
theorem four_waypoints_zero_error (qrSolve : QRSolve ℝ)
    (mpcSolve : List ℝ → List ℝ → MPCResult ℝ)
    (parse : List Char → Option (List Char × Option (Telemetry ℝ)))
    (dump : MsgJson ℝ → List Char)
    (hls : IsLeastSquares (designMatrix [9, 19, 29, 39] 3)
      (fun j => ([0, 0, 0, 0] : List ℝ).getD j.val 0)
      (qrSolve ([9, 19, 29, 39] : List ℝ).length ((3 : Int).toNat + 1)
        (designMatrix [9, 19, 29, 39] 3) (fun j => ([0, 0, 0, 0] : List ℝ).getD j.val 0))) :
    pipeline
      { cos := Real.cos, sin := Real.sin, atan := Real.arctan, pi := Real.pi,
        qrSolve := qrSolve, mpcSolve := mpcSolve, parse := parse, dump := dump }
      { ptsx := [10, 20, 30, 40], ptsy := [0, 0, 0, 0], x := 0, y := 0, psi := 0,
        speed := 10, steering_angle := 0, throttle := 0 }
      = some (([9, 19, 29, 39], [0, 0, 0, 0]), [0, 0, 0, 0], [0, 0, 0, 10, 0, 0]) :=
  pipeline_four_waypoints qrSolve mpcSolve parse dump hls

/-- C7 amended, with a solve that answers the zero vector, which is a
least-squares solution for the zero right-hand side. -/
theorem four_waypoints_zero_error_witness :
    pipeline (stubEnv Real.cos Real.sin Real.arctan Real.pi [] [])
      { ptsx := [10, 20, 30, 40], ptsy := [0, 0, 0, 0], x := 0, y := 0, psi := 0,
        speed := 10, steering_angle := 0, throttle := 0 }
      = some (([9, 19, 29, 39], [0, 0, 0, 0]), [0, 0, 0, 0], [0, 0, 0, 10, 0, 0]) :=
  four_waypoints_zero_error _ _ _ _ zero_solve_isLeastSquares

/-! ### The actuator command -/

end MPCProject
